import Mathlib

/-! sqldef test utilities (`cmd/testutils/testutils.go`)

A shallow embedding of the helpers `JoinDDLs`, `SplitDDLs`, `RunDDLs`,
`ReadTests` and `RunTest`, and the properties they satisfy.

Conventions of the embedding:

* a Go `string` is a Lean `String`; a Go slice is a `List` (the `nil` slice is
  `[]`); a Go `map[string]T` is an association list with first-match lookup
  (the `nil` map is `[]`);
* a Go `error` result is an `Option Error` (`none` is Go's `nil`), and a Go
  function returning `(v, err)` returns a pair here, so that a callee handing
  back both a value and an error is covered;
* the database behind `adapter.Database` is a state of an arbitrary type `σ`,
  threaded through every call; functions that talk to it also return the list
  of calls they made, in order;
* the packages `schema`, `adapter`, `filepath`, `ioutil` and `yaml` are not
  part of the file: what it uses of them is taken as a parameter.
-/

namespace Testutils

/-- A Go `error` value. -/
abbrev Error := String

/-! ## `JoinDDLs` -/

/-- Go `JoinDDLs` (testutils.go:146-153): a `strings.Builder` that, for each
statement in order, receives the statement and then `";\n"`. -/
def JoinDDLs (ddls : List String) : String :=
  ddls.foldl (fun builder ddl => (builder ++ ddl) ++ ";\n") ""

/-- The joined text written out, `d1 ++ ";\n" ++ d2 ++ ";\n" ++ ...`, by
recursion on the list. -/
def joinedText : List String → String
  | [] => ""
  | d :: ds => d ++ (";\n" ++ joinedText ds)

/-! ## `SplitDDLs` -/

/-- What `testutils.go` uses of package `schema`: the parser, the `Statement()`
method of a parsed statement and the DDL generator. `Mode` is
`schema.GeneratorMode`, `Stmt` is `schema.DDL`. -/
structure Schema (Mode Stmt : Type) where
  /-- Go `schema.ParseDDLs(mode, str)`. -/
  ParseDDLs : Mode → String → List Stmt × Option Error
  /-- Go `statement.Statement()`. -/
  Statement : Stmt → String
  /-- Go `schema.GenerateIdempotentDDLs(mode, desiredDDLs, currentDDLs)`. -/
  GenerateIdempotentDDLs : Mode → String → String → List String × Option Error

/-- Go `SplitDDLs` (testutils.go:116-127). -/
def SplitDDLs {Mode Stmt : Type} (schema : Schema Mode Stmt) (mode : Mode) (str : String) :
    List String × Option Error :=
  match schema.ParseDDLs mode str with
  | (_, some err) => ([], some err)
  | (statements, none) =>
    (statements.foldl (fun ddls statement => ddls ++ [schema.Statement statement]) [], none)

/-! ## `RunDDLs` -/

/-- What `testutils.go` uses of the database: the four calls of `database/sql`
that `RunDDLs` makes and `adapter.DumpDDLs`. Every call may change the state
and may fail. -/
structure Database (σ : Type) where
  /-- Go `db.DB().Begin()`. -/
  Begin : σ → σ × Option Error
  /-- Go `transaction.Exec(ddl)`. -/
  Exec : σ → String → σ × Option Error
  /-- Go `transaction.Rollback()`. -/
  Rollback : σ → σ × Option Error
  /-- Go `transaction.Commit()`. -/
  Commit : σ → σ × Option Error
  /-- Go `adapter.DumpDDLs(db)`. -/
  DumpDDLs : σ → σ × String × Option Error

/-- A call made on the database. -/
inductive Call where
  | begin
  | exec (ddl : String)
  | rollback
  | commit
  | dump
  deriving DecidableEq, Repr

/-- The outcome of a function that talks to the database: the state it leaves,
the calls it made, and the error it returns. -/
structure Ran (σ : Type) where
  state : σ
  calls : List Call
  err : Option Error

/-- The `for _, ddl := range ddls` loop of `RunDDLs` followed by the final
`transaction.Commit()` (testutils.go:134-143). -/
def runStatements {σ : Type} (db : Database σ) : σ → List String → Ran σ
  | s, [] =>
    match db.Commit s with
    | (s1, err) => ⟨s1, [Call.commit], err⟩
  | s, ddl :: rest =>
    match db.Exec s ddl with
    | (s1, some err) =>
      match db.Rollback s1 with
      | (s2, some rollbackErr) => ⟨s2, [Call.exec ddl, Call.rollback], some rollbackErr⟩
      | (s2, none) => ⟨s2, [Call.exec ddl, Call.rollback], some err⟩
    | (s1, none) =>
      match runStatements db s1 rest with
      | ⟨s2, calls, err⟩ => ⟨s2, Call.exec ddl :: calls, err⟩

/-- Go `RunDDLs` (testutils.go:129-144). -/
def RunDDLs {σ : Type} (db : Database σ) (s : σ) (ddls : List String) : Ran σ :=
  match db.Begin s with
  | (s1, some err) => ⟨s1, [Call.begin], some err⟩
  | (s1, none) =>
    match runStatements db s1 ddls with
    | ⟨s2, calls, err⟩ => ⟨s2, Call.begin :: calls, err⟩

/-- The first statement whose `Exec` fails when the statements run one after
the other from state `s`: its index, the error, and the state the failed
`Exec` leaves. `none` when every `Exec` succeeds. -/
def firstFailure {σ : Type} (db : Database σ) : σ → List String → Option (Nat × Error × σ)
  | _, [] => none
  | s, ddl :: rest =>
    match db.Exec s ddl with
    | (s1, some err) => some (0, err, s1)
    | (s1, none) => (firstFailure db s1 rest).map (fun r => (r.1 + 1, r.2))

/-- The statements passed to `Exec` in a list of calls, in order. -/
def execsOf : List Call → List String
  | [] => []
  | Call.exec ddl :: rest => ddl :: execsOf rest
  | _ :: rest => execsOf rest

/-! ## `ReadTests` -/

/-- Go `TestCase` (testutils.go:17-21). -/
structure TestCase where
  Current : String
  Desired : String
  Output : String
  deriving DecidableEq, Repr

/-- A Go `map[string]TestCase`: an association list read with `List.lookup`. -/
abbrev TestMap := List (String × TestCase)

/-- Go `ret[name] = test` on a map: replaces the value of a key that is
present, adds the key otherwise. -/
def TestMap.set (ret : TestMap) (name : String) (test : TestCase) : TestMap :=
  if (ret.lookup name).isSome then
    ret.map (fun entry => if entry.1 = name then (name, test) else entry)
  else
    ret ++ [(name, test)]

/-- What `ReadTests` uses of the file system and of the YAML decoder. A decoded
file is a Go `map[string]*TestCase`, given here as the list of its entries in
the order the `range` loop visits them; a `nil` pointer is `none`. -/
structure Files where
  /-- Go `filepath.Glob(pattern)`. -/
  Glob : String → List String × Option Error
  /-- Go `ioutil.ReadFile(file)`. -/
  ReadFile : String → String × Option Error
  /-- Go `yaml.UnmarshalStrict(buf, &tests)`. -/
  UnmarshalStrict : String → List (String × Option TestCase) × Option Error

/-- How a call of `ReadTests` ends. -/
inductive Loaded where
  /-- The function returns `(ret, err)`. -/
  | returned (ret : TestMap) (err : Option Error)
  /-- The process exits in `log.Fatal(msg)`. -/
  | fatal (msg : String)
  /-- The run panics on `test.Output` of a `nil` `*TestCase`. -/
  | nilDereference
  deriving DecidableEq, Repr

/-- The argument of `log.Fatal` at testutils.go:48:
`fmt.Sprintf("There are multiple test cases named '%s'", name)`. -/
def multipleMessage (name : String) : String :=
  "There are multiple test cases named \x27" ++ name ++ "\x27"

/-- The body of `if test.Output == "" { test.Output = test.Desired }`
(testutils.go:44-46). -/
def defaultOutput (test : TestCase) : TestCase :=
  if test.Output = "" then { test with Output := test.Desired } else test

/-- The loop `for name, test := range tests` (testutils.go:43-51): `Sum.inl` is
the map when the loop runs to its end, `Sum.inr` is how the run stops. -/
def addTests : TestMap → List (String × Option TestCase) → TestMap ⊕ Loaded
  | ret, [] => Sum.inl ret
  | _, (_, none) :: _ => Sum.inr Loaded.nilDereference
  | ret, (name, some test) :: rest =>
    if (ret.lookup name).isSome then
      Sum.inr (Loaded.fatal (multipleMessage name))
    else
      addTests (ret.set name (defaultOutput test)) rest

/-- The loop `for _, file := range files` and the final `return ret, nil`
(testutils.go:30-54). -/
def readFiles (fs : Files) : TestMap → List String → Loaded
  | ret, [] => Loaded.returned ret none
  | ret, file :: rest =>
    match fs.ReadFile file with
    | (_, some err) => Loaded.returned [] (some err)
    | (buf, none) =>
      match fs.UnmarshalStrict buf with
      | (_, some err) => Loaded.returned [] (some err)
      | (tests, none) =>
        match addTests ret tests with
        | Sum.inr stop => stop
        | Sum.inl ret1 => readFiles fs ret1 rest

/-- Go `ReadTests` (testutils.go:23-55). -/
def ReadTests (fs : Files) (pattern : String) : Loaded :=
  match fs.Glob pattern with
  | (_, some err) => Loaded.returned [] (some err)
  | (files, none) => readFiles fs [] files

/-- The entries a matched file defines: what the decoder gives for what the
file holds (nothing when reading or decoding fails). -/
def entriesOf (fs : Files) (file : String) : List (String × Option TestCase) :=
  match fs.ReadFile file with
  | (_, some _) => []
  | (buf, none) =>
    match fs.UnmarshalStrict buf with
    | (_, some _) => []
    | (tests, none) => tests

/-- Whether reading and decoding a file both succeed. -/
def loads (fs : Files) (file : String) : Bool :=
  match fs.ReadFile file with
  | (_, some _) => false
  | (buf, none) => (fs.UnmarshalStrict buf).2.isNone

/-- The error `ReadTests` meets on a file: that of `ReadFile`, else that of
`UnmarshalStrict`. -/
def loadError (fs : Files) (file : String) : Option Error :=
  match fs.ReadFile file with
  | (_, some err) => some err
  | (buf, none) => (fs.UnmarshalStrict buf).2

/-! ## `RunTest` -/

/-- A failure recorded with `t.Errorf`; the run goes on after it. -/
inductive Report where
  /-- The report of the two idempotency checks (testutils.go:80 and 112). -/
  | modified (got : String)
  /-- The report of the main test (testutils.go:95). -/
  | mismatch (expected actual : String)
  deriving DecidableEq, Repr

/-- The text `t.Errorf` prints for a report. -/
def Report.message : Report → String
  | Report.modified got => "expected nothing is modifed, but got:\n```\n" ++ got ++ "```"
  | Report.mismatch expected actual =>
    "\nexpected:\n```\n" ++ expected ++ "```\n\nactual:\n```\n" ++ actual ++ "```"

/-- How a call of `RunTest` ends. -/
inductive Ending where
  /-- The function returns. -/
  | completed
  /-- The test stops in `t.Fatal(err)`. -/
  | tFatal (err : Error)
  /-- The process exits in `log.Fatal(err)`. -/
  | logFatal (err : Error)
  deriving DecidableEq, Repr

/-- The outcome of `RunTest`: the state of the database, the calls made on it,
the failures recorded with `t.Errorf`, and how the run ends. -/
structure TestRun (σ : Type) where
  state : σ
  calls : List Call
  reports : List Report
  ending : Ending

/-- A run passes when it returns with nothing recorded. -/
def TestRun.passed {σ : Type} (run : TestRun σ) : Prop :=
  run.ending = Ending.completed ∧ run.reports = []

/-- The block `// Prepare current` (testutils.go:58-68); `err` is the argument
of `t.Fatal`. -/
def prepareCurrent {σ Mode Stmt : Type} (db : Database σ) (schema : Schema Mode Stmt)
    (test : TestCase) (mode : Mode) (s : σ) : Ran σ :=
  if test.Current ≠ "" then
    match SplitDDLs schema mode test.Current with
    | (_, some err) => ⟨s, [], some err⟩
    | (ddls, none) => RunDDLs db s ddls
  else
    ⟨s, [], none⟩

/-- The second block `// Test idempotency` (testutils.go:102-113), run from
state `s` after the calls and reports made so far. -/
def checkDesired {σ Mode Stmt : Type} (db : Database σ) (schema : Schema Mode Stmt)
    (test : TestCase) (mode : Mode) (s : σ) (calls : List Call) (reports : List Report) :
    TestRun σ :=
  match db.DumpDDLs s with
  | (s1, _, some err) => ⟨s1, calls ++ [Call.dump], reports, Ending.logFatal err⟩
  | (s1, dumpDDLs, none) =>
    match schema.GenerateIdempotentDDLs mode test.Desired dumpDDLs with
    | (_, some err) => ⟨s1, calls ++ [Call.dump], reports, Ending.tFatal err⟩
    | (ddls, none) =>
      if ddls.length > 0 then
        ⟨s1, calls ++ [Call.dump], reports ++ [Report.modified (JoinDDLs ddls)], Ending.completed⟩
      else
        ⟨s1, calls ++ [Call.dump], reports, Ending.completed⟩

/-- The block `// Main test` (testutils.go:83-100) and what follows it. -/
def mainTest {σ Mode Stmt : Type} (db : Database σ) (schema : Schema Mode Stmt)
    (test : TestCase) (mode : Mode) (s : σ) (calls : List Call) (reports : List Report) :
    TestRun σ :=
  match db.DumpDDLs s with
  | (s1, _, some err) => ⟨s1, calls ++ [Call.dump], reports, Ending.logFatal err⟩
  | (s1, dumpDDLs, none) =>
    match schema.GenerateIdempotentDDLs mode test.Desired dumpDDLs with
    | (_, some err) => ⟨s1, calls ++ [Call.dump], reports, Ending.tFatal err⟩
    | (ddls, none) =>
      let expected := test.Output
      let actual := JoinDDLs ddls
      let reports1 :=
        if expected ≠ actual then reports ++ [Report.mismatch expected actual] else reports
      match RunDDLs db s1 ddls with
      | ⟨s2, made, some err⟩ => ⟨s2, calls ++ [Call.dump] ++ made, reports1, Ending.tFatal err⟩
      | ⟨s2, made, none⟩ =>
        checkDesired db schema test mode s2 (calls ++ [Call.dump] ++ made) reports1

/-- The first block `// Test idempotency` (testutils.go:70-81) and what follows
it. -/
def checkCurrent {σ Mode Stmt : Type} (db : Database σ) (schema : Schema Mode Stmt)
    (test : TestCase) (mode : Mode) (s : σ) (calls : List Call) : TestRun σ :=
  match db.DumpDDLs s with
  | (s1, _, some err) => ⟨s1, calls ++ [Call.dump], [], Ending.logFatal err⟩
  | (s1, dumpDDLs, none) =>
    match schema.GenerateIdempotentDDLs mode test.Current dumpDDLs with
    | (_, some err) => ⟨s1, calls ++ [Call.dump], [], Ending.tFatal err⟩
    | (ddls, none) =>
      if ddls.length > 0 then
        mainTest db schema test mode s1 (calls ++ [Call.dump]) [Report.modified (JoinDDLs ddls)]
      else
        mainTest db schema test mode s1 (calls ++ [Call.dump]) []

/-- Go `RunTest` (testutils.go:57-114), run on a database in state `s`. -/
def RunTest {σ Mode Stmt : Type} (db : Database σ) (schema : Schema Mode Stmt)
    (test : TestCase) (mode : Mode) (s : σ) : TestRun σ :=
  match prepareCurrent db schema test mode s with
  | ⟨s1, made, some err⟩ => ⟨s1, made, [], Ending.tFatal err⟩
  | ⟨s1, made, none⟩ => checkCurrent db schema test mode s1 made

/-! ## Witness data -/

/-- A database that accepts every call and changes nothing. -/
def quietDb : Database Unit where
  Begin := fun s => (s, none)
  Exec := fun s _ => (s, none)
  Rollback := fun s => (s, none)
  Commit := fun s => (s, none)
  DumpDDLs := fun s => (s, "", none)

/-- A database on which every `Exec` fails and the `Rollback` fails too. -/
def brokenDb : Database Unit where
  Begin := fun s => (s, none)
  Exec := fun s _ => (s, some "exec failed")
  Rollback := fun s => (s, some "rollback failed")
  Commit := fun s => (s, none)
  DumpDDLs := fun s => (s, "", none)

/-- A database on which every `Exec` fails and the `Rollback` succeeds. -/
def rejectingDb : Database Unit where
  Begin := fun s => (s, none)
  Exec := fun s _ => (s, some "exec failed")
  Rollback := fun s => (s, none)
  Commit := fun s => (s, none)
  DumpDDLs := fun s => (s, "", none)

/-- The names of a list of decoded entries, in order. -/
def namesOf (tests : List (String × Option TestCase)) : List String :=
  tests.map Prod.fst

/-- What the loop of `ReadTests` stores for a list of decoded entries: each
entry under its name, with the default of `Output` applied. -/
def stored (tests : List (String × Option TestCase)) : TestMap :=
  tests.filterMap (fun entry => entry.2.map (fun test => (entry.1, defaultOutput test)))

/-- The entries of a list of files, file after file. -/
def allEntries (fs : Files) : List String → List (String × Option TestCase)
  | [] => []
  | file :: rest => entriesOf fs file ++ allEntries fs rest

/-- Two files of one test case each; the second leaves `Output` out. -/
def twoFiles : Files where
  Glob := fun _ => (["a.yml", "b.yml"], none)
  ReadFile := fun file => (file, none)
  UnmarshalStrict := fun buf =>
    if buf = "a.yml" then
      ([("AddColumn", some ⟨"CREATE TABLE a (id int)", "CREATE TABLE a (id int, n int)",
          "ALTER TABLE a ADD COLUMN n int;\n"⟩)], none)
    else
      ([("CreateTable", some ⟨"", "CREATE TABLE b (id int);\n", ""⟩)], none)

/-- The map `ReadTests` returns for `twoFiles`. -/
def twoTests : TestMap :=
  [("AddColumn", ⟨"CREATE TABLE a (id int)", "CREATE TABLE a (id int, n int)",
      "ALTER TABLE a ADD COLUMN n int;\n"⟩),
    ("CreateTable", ⟨"", "CREATE TABLE b (id int);\n", "CREATE TABLE b (id int);\n"⟩)]

/-- Three files: the first two define a test case of the same name, the third
cannot be read. -/
def clashThenUnreadable : Files where
  Glob := fun _ => (["a.yml", "b.yml", "c.yml"], none)
  ReadFile := fun file => if file = "c.yml" then ("", some "permission denied") else (file, none)
  UnmarshalStrict := fun _ => ([("CreateTable", some ⟨"", "CREATE TABLE a (id int)", ""⟩)], none)

/-- Three files, in the sorted order of `filepath.Glob`: the first cannot be
read, the other two define a test case of the same name. -/
def unreadableThenClash : Files where
  Glob := fun _ => (["0c.yml", "a.yml", "b.yml"], none)
  ReadFile := fun file => if file = "0c.yml" then ("", some "permission denied") else (file, none)
  UnmarshalStrict := fun _ => ([("CreateTable", some ⟨"", "CREATE TABLE a (id int)", ""⟩)], none)

/-- A database whose state is the text of its schema: `Exec` replaces the text
by the statement it runs and `DumpDDLs` returns the text. -/
def textDb : Database String where
  Begin := fun s => (s, none)
  Exec := fun _ ddl => (ddl, none)
  Rollback := fun s => (s, none)
  Commit := fun s => (s, none)
  DumpDDLs := fun s => (s, s, none)

/-- A generator over such texts: no statement when the desired text is the
current one, the desired text otherwise. -/
def textSchema : Schema Unit String where
  ParseDDLs := fun _ str => ([str], none)
  Statement := fun statement => statement
  GenerateIdempotentDDLs := fun _ desired current =>
    if desired = current then ([], none) else ([desired], none)

/-- A generator that never settles: it always answers with the desired text. -/
def restlessSchema : Schema Unit String where
  ParseDDLs := fun _ str => ([str], none)
  Statement := fun statement => statement
  GenerateIdempotentDDLs := fun _ desired _ => ([desired], none)

/-- A parser that fails on `SELECT 1`, handing back the statement it had read
so far with the error. -/
def pickySchema : Schema Unit String where
  ParseDDLs := fun _ str =>
    if str = "SELECT 1" then (["SELECT"], some "unsupported statement") else ([str], none)
  Statement := fun statement => statement
  GenerateIdempotentDDLs := fun _ desired _ => ([desired], none)

/-- A test case that creates one table from the empty schema. -/
def createTable : TestCase :=
  ⟨"", "CREATE TABLE a (id int)", "CREATE TABLE a (id int);\n"⟩

/-- The same test case with an expected output the generator does not give. -/
def wrongOutput : TestCase :=
  ⟨"", "CREATE TABLE a (id int)", "CREATE TABLE b (id int);\n"⟩

/-! ## Lemmas on `JoinDDLs` -/

theorem foldl_builder (builder : String) (ddls : List String) :
    ddls.foldl (fun builder ddl => (builder ++ ddl) ++ ";\n") builder
      = builder ++ joinedText ddls := by
  induction ddls generalizing builder with
  | nil => simp [joinedText]
  | cons d ds ih =>
    rw [List.foldl_cons, ih]
    simp [joinedText, String.append_assoc]

theorem JoinDDLs_eq_joinedText (ddls : List String) : JoinDDLs ddls = joinedText ddls := by
  simp [JoinDDLs, foldl_builder]

theorem joinedText_append (a b : List String) :
    joinedText (a ++ b) = joinedText a ++ joinedText b := by
  induction a with
  | nil => simp [joinedText]
  | cons d ds ih => simp [joinedText, ih, String.append_assoc]

theorem joinedText_eq_empty (ddls : List String) : joinedText ddls = "" ↔ ddls = [] := by
  cases ddls with
  | nil => simp [joinedText]
  | cons d ds =>
    simp only [joinedText, reduceCtorEq, iff_false]
    intro h
    have hlen := congrArg String.length h
    have h2 : ";\n".length = 2 := by decide
    simp [String.length_append, h2] at hlen

theorem foldl_join_acc (acc : String) (parts : List String) :
    parts.foldl (fun r s => r ++ s) acc = acc ++ parts.foldl (fun r s => r ++ s) "" := by
  induction parts generalizing acc with
  | nil => simp
  | cons p ps ih =>
    rw [List.foldl_cons, ih, List.foldl_cons, ih ("" ++ p)]
    simp [String.append_assoc]

/-! ## Lemmas on `SplitDDLs` -/

theorem foldl_append_singleton {α β : Type} (f : α → β) (acc : List β) (xs : List α) :
    xs.foldl (fun ddls x => ddls ++ [f x]) acc = acc ++ xs.map f := by
  induction xs generalizing acc with
  | nil => simp
  | cons x xs ih => simp [ih]

/-! ## Lemmas on `RunDDLs` -/

theorem execsOf_map_exec (ddls : List String) (rest : List Call) :
    execsOf (ddls.map Call.exec ++ rest) = ddls ++ execsOf rest := by
  induction ddls with
  | nil => simp
  | cons d ds ih => simp [execsOf, ih]

theorem runStatements_failure {σ : Type} (db : Database σ) (s : σ) (ddls : List String)
    (k : Nat) (err : Error) (s1 : σ) (h : firstFailure db s ddls = some (k, err, s1)) :
    k < ddls.length ∧
    (runStatements db s ddls).calls = (ddls.take (k + 1)).map Call.exec ++ [Call.rollback] ∧
    (runStatements db s ddls).state = (db.Rollback s1).1 ∧
    (runStatements db s ddls).err = some (((db.Rollback s1).2).getD err) := by
  induction ddls generalizing s k with
  | nil => simp [firstFailure] at h
  | cons d ds ih =>
    rcases hx : db.Exec s d with ⟨s2, _ | e⟩
    · simp only [firstFailure, hx] at h
      cases hf : firstFailure db s2 ds with
      | none => simp [hf] at h
      | some r =>
        obtain ⟨k1, e1, s3⟩ := r
        simp only [hf, Option.map_some', Option.some.injEq, Prod.mk.injEq] at h
        obtain ⟨rfl, rfl, rfl⟩ := h
        obtain ⟨h1, h2, h3, h4⟩ := ih s2 k1 hf
        simp only [runStatements, hx]
        refine ⟨by simpa using h1, ?_, h3, h4⟩
        simp [h2]
    · simp only [firstFailure, hx, Option.some.injEq, Prod.mk.injEq] at h
      obtain ⟨rfl, rfl, rfl⟩ := h
      simp only [runStatements, hx]
      rcases hr : db.Rollback s2 with ⟨s3, _ | re⟩ <;> simp

theorem runStatements_success {σ : Type} (db : Database σ) (s : σ) (ddls : List String)
    (h : firstFailure db s ddls = none) :
    (runStatements db s ddls).calls = ddls.map Call.exec ++ [Call.commit] := by
  induction ddls generalizing s with
  | nil => simp [runStatements]
  | cons d ds ih =>
    rcases hx : db.Exec s d with ⟨s2, _ | e⟩
    · simp only [firstFailure, hx] at h
      cases hf : firstFailure db s2 ds with
      | none => simp [runStatements, hx, ih s2 hf]
      | some r => simp [hf] at h
    · simp [firstFailure, hx] at h

theorem RunDDLs_of_begin {σ : Type} (db : Database σ) (s s1 : σ) (ddls : List String)
    (hBegin : db.Begin s = (s1, none)) :
    (RunDDLs db s ddls).calls = Call.begin :: (runStatements db s1 ddls).calls ∧
    (RunDDLs db s ddls).err = (runStatements db s1 ddls).err ∧
    (RunDDLs db s ddls).state = (runStatements db s1 ddls).state := by
  simp [RunDDLs, hBegin]

/-! ## Lemmas on `ReadTests` -/

theorem lookup_isSome_iff_mem_keys (ret : TestMap) (name : String) :
    (ret.lookup name).isSome = true ↔ name ∈ ret.map Prod.fst := by
  rw [List.lookup_isSome_iff]
  simp only [beq_iff_eq, List.mem_map]
  constructor
  · rintro ⟨p, hp, rfl⟩
    exact ⟨p, hp, rfl⟩
  · rintro ⟨p, hp, rfl⟩
    exact ⟨p, hp, rfl⟩

theorem set_of_absent (ret : TestMap) (name : String) (test : TestCase)
    (h : ¬ (ret.lookup name).isSome = true) : ret.set name test = ret ++ [(name, test)] := by
  simp only [TestMap.set, h, if_false]
  rfl

theorem addTests_append (ret : TestMap) (a b : List (String × Option TestCase)) :
    addTests ret (a ++ b) =
      match addTests ret a with
      | Sum.inl ret1 => addTests ret1 b
      | Sum.inr stop => Sum.inr stop := by
  induction a generalizing ret with
  | nil => simp [addTests]
  | cons e rest ih =>
    obtain ⟨name, _ | test⟩ := e
    · simp [addTests]
    · by_cases h : (ret.lookup name).isSome = true
      · simp [addTests, h]
      · simp only [List.cons_append, addTests, h, if_false]
        exact ih _

theorem addTests_inl_iff (ret ret1 : TestMap) (tests : List (String × Option TestCase)) :
    addTests ret tests = Sum.inl ret1 ↔
      (∀ e ∈ tests, e.2 ≠ none) ∧ (∀ n ∈ namesOf tests, n ∉ ret.map Prod.fst)
        ∧ (namesOf tests).Nodup ∧ ret1 = ret ++ stored tests := by
  induction tests generalizing ret with
  | nil => simp [addTests, namesOf, stored, eq_comm]
  | cons e rest ih =>
    obtain ⟨name, _ | test⟩ := e
    · simp [addTests]
    · by_cases h : (ret.lookup name).isSome = true
      · have hmem := (lookup_isSome_iff_mem_keys ret name).1 h
        rw [addTests, if_pos h]
        simp only [reduceCtorEq, false_iff, not_and]
        intro _ hdis
        exact absurd hmem (hdis name (by simp [namesOf]))
      · have hmem : name ∉ ret.map Prod.fst := fun hm =>
          h ((lookup_isSome_iff_mem_keys ret name).2 hm)
        rw [addTests, if_neg h, set_of_absent ret name _ h, ih]
        have hst : stored ((name, some test) :: rest)
            = (name, defaultOutput test) :: stored rest := by
          simp [stored]
        have hkeys : (ret ++ [(name, defaultOutput test)]).map Prod.fst
            = ret.map Prod.fst ++ [name] := by simp
        have hnames : namesOf ((name, some test) :: rest) = name :: namesOf rest := rfl
        rw [hst, hkeys, hnames]
        simp only [List.append_assoc, List.singleton_append, List.mem_cons, forall_eq_or_imp,
          ne_eq, reduceCtorEq, not_false_eq_true, true_and, List.nodup_cons, List.mem_append,
          List.mem_singleton, not_or, List.not_mem_nil, or_false]
        constructor
        · rintro ⟨h1, h2, h3, h4⟩
          refine ⟨h1, ⟨hmem, fun n hn => (h2 n hn).1⟩, ⟨?_, h3⟩, h4⟩
          intro hn
          exact (h2 name hn).2 rfl
        · rintro ⟨h1, ⟨-, h2⟩, ⟨h3, h4⟩, h5⟩
          refine ⟨h1, ?_, h4, h5⟩
          intro n hn
          refine ⟨h2 n hn, ?_⟩
          rintro rfl
          exact h3 hn

theorem addTests_inr (ret : TestMap) (tests : List (String × Option TestCase)) (stop : Loaded)
    (h : addTests ret tests = Sum.inr stop) :
    (stop = Loaded.nilDereference ∧ ∃ e ∈ tests, e.2 = none) ∨
      ∃ n, stop = Loaded.fatal (multipleMessage n)
        ∧ 2 ≤ (ret.map Prod.fst ++ namesOf tests).count n := by
  induction tests generalizing ret with
  | nil => simp [addTests] at h
  | cons e rest ih =>
    obtain ⟨name, _ | test⟩ := e
    · left
      simp only [addTests, Sum.inr.injEq] at h
      exact ⟨h.symm, ⟨(name, none), by simp, rfl⟩⟩
    · by_cases hl : (ret.lookup name).isSome = true
      · right
        rw [addTests, if_pos hl] at h
        simp only [Sum.inr.injEq] at h
        refine ⟨name, h.symm, ?_⟩
        have hmem := (lookup_isSome_iff_mem_keys ret name).1 hl
        have h1 : 1 ≤ (ret.map Prod.fst).count name := List.count_pos_iff.2 hmem
        have h2 : 1 ≤ (namesOf ((name, some test) :: rest)).count name :=
          List.count_pos_iff.2 (by simp [namesOf])
        rw [List.count_append]
        omega
      · rw [addTests, if_neg hl, set_of_absent ret name _ hl] at h
        rcases ih _ h with ⟨h1, e, he, hn⟩ | ⟨n, h1, h2⟩
        · left
          exact ⟨h1, e, List.mem_cons_of_mem _ he, hn⟩
        · right
          refine ⟨n, h1, ?_⟩
          have hk : (ret ++ [(name, defaultOutput test)]).map Prod.fst ++ namesOf rest
              = ret.map Prod.fst ++ namesOf ((name, some test) :: rest) := by
            simp [namesOf]
          rw [← hk]
          exact h2

theorem readFiles_cons_of_loads (fs : Files) (ret : TestMap) (file : String)
    (rest : List String) (h : loads fs file = true) :
    readFiles fs ret (file :: rest) =
      match addTests ret (entriesOf fs file) with
      | Sum.inl ret1 => readFiles fs ret1 rest
      | Sum.inr stop => stop := by
  rcases hr : fs.ReadFile file with ⟨buf, _ | e⟩
  · rcases hu : fs.UnmarshalStrict buf with ⟨tests, _ | e⟩
    · simp only [readFiles, entriesOf, hr, hu]
      cases addTests ret tests <;> rfl
    · simp [loads, hr, hu] at h
  · simp [loads, hr] at h

theorem readFiles_cons_of_loadError (fs : Files) (ret : TestMap) (file : String)
    (rest : List String) (err : Error) (h : loadError fs file = some err) :
    readFiles fs ret (file :: rest) = Loaded.returned [] (some err) := by
  rcases hr : fs.ReadFile file with ⟨buf, _ | e⟩
  · rcases hu : fs.UnmarshalStrict buf with ⟨tests, _ | e⟩
    · simp [loadError, hr, hu] at h
    · simp only [loadError, hr, hu, Option.some.injEq] at h
      simp [readFiles, hr, hu, h]
  · simp only [loadError, hr, Option.some.injEq] at h
    simp [readFiles, hr, h]

theorem loads_or_loadError (fs : Files) (file : String) :
    loads fs file = true ∨ ∃ err, loadError fs file = some err ∧ entriesOf fs file = [] := by
  rcases hr : fs.ReadFile file with ⟨buf, _ | e⟩
  · rcases hu : fs.UnmarshalStrict buf with ⟨tests, _ | e⟩
    · left
      simp [loads, hr, hu]
    · right
      exact ⟨e, by simp [loadError, hr, hu], by simp [entriesOf, hr, hu]⟩
  · right
    exact ⟨e, by simp [loadError, hr], by simp [entriesOf, hr]⟩

theorem readFiles_append_of_loads (fs : Files) (ret : TestMap) (front back : List String)
    (h : ∀ file ∈ front, loads fs file = true) :
    readFiles fs ret (front ++ back) =
      match addTests ret (allEntries fs front) with
      | Sum.inl ret1 => readFiles fs ret1 back
      | Sum.inr stop => stop := by
  induction front generalizing ret with
  | nil => simp [allEntries, addTests]
  | cons file rest ih =>
    have hf : loads fs file = true := h file (by simp)
    have hrest : ∀ x ∈ rest, loads fs x = true := fun x hx => h x (List.mem_cons_of_mem _ hx)
    rw [List.cons_append, readFiles_cons_of_loads fs ret file _ hf, allEntries, addTests_append]
    cases hadd : addTests ret (entriesOf fs file) with
    | inl ret1 => exact ih ret1 hrest
    | inr stop => rfl

theorem readFiles_returned (fs : Files) (ret ret1 : TestMap) (files : List String)
    (h : readFiles fs ret files = Loaded.returned ret1 none) :
    (∀ file ∈ files, loads fs file = true) ∧
      addTests ret (allEntries fs files) = Sum.inl ret1 := by
  induction files generalizing ret with
  | nil =>
    simp only [readFiles, Loaded.returned.injEq, and_true] at h
    simp [allEntries, addTests, h]
  | cons file rest ih =>
    rcases loads_or_loadError fs file with hl | ⟨err, he, -⟩
    · rw [readFiles_cons_of_loads fs ret file rest hl] at h
      cases hadd : addTests ret (entriesOf fs file) with
      | inl ret2 =>
        rw [hadd] at h
        obtain ⟨h1, h2⟩ := ih ret2 h
        refine ⟨?_, ?_⟩
        · intro x hx
          rcases List.mem_cons.1 hx with rfl | hx
          · exact hl
          · exact h1 x hx
        · rw [allEntries, addTests_append, hadd]
          exact h2
      | inr stop =>
        rw [hadd] at h
        exfalso
        rcases addTests_inr ret _ stop hadd with ⟨rfl, -⟩ | ⟨n, rfl, -⟩
        · simp at h
        · simp at h
    · rw [readFiles_cons_of_loadError fs ret file rest err he] at h
      simp at h

theorem readFiles_returned_error (fs : Files) (ret ret1 : TestMap) (files : List String)
    (err : Error) (h : readFiles fs ret files = Loaded.returned ret1 (some err)) : ret1 = [] := by
  induction files generalizing ret with
  | nil => simp [readFiles] at h
  | cons file rest ih =>
    rcases loads_or_loadError fs file with hl | ⟨e, he, -⟩
    · rw [readFiles_cons_of_loads fs ret file rest hl] at h
      cases hadd : addTests ret (entriesOf fs file) with
      | inl ret2 =>
        rw [hadd] at h
        exact ih ret2 h
      | inr stop =>
        rw [hadd] at h
        rcases addTests_inr ret _ stop hadd with ⟨rfl, -⟩ | ⟨n, rfl, -⟩
        · simp at h
        · simp at h
    · rw [readFiles_cons_of_loadError fs ret file rest e he] at h
      simp only [Loaded.returned.injEq] at h
      exact h.1.symm

theorem allEntries_append (fs : Files) (a b : List String) :
    allEntries fs (a ++ b) = allEntries fs a ++ allEntries fs b := by
  induction a with
  | nil => simp [allEntries]
  | cons f rest ih => simp [allEntries, ih]

theorem mem_allEntries (fs : Files) (files : List String) (e : String × Option TestCase) :
    e ∈ allEntries fs files ↔ ∃ file ∈ files, e ∈ entriesOf fs file := by
  induction files with
  | nil => simp [allEntries]
  | cons f rest ih => simp [allEntries, ih]

theorem length_allEntries (fs : Files) (files : List String) :
    (allEntries fs files).length = (files.map (fun file => (entriesOf fs file).length)).sum := by
  induction files with
  | nil => simp [allEntries]
  | cons f rest ih => simp [allEntries, ih]

theorem keys_stored (tests : List (String × Option TestCase)) (h : ∀ e ∈ tests, e.2 ≠ none) :
    (stored tests).map Prod.fst = namesOf tests := by
  induction tests with
  | nil => simp [stored, namesOf]
  | cons e rest ih =>
    obtain ⟨name, _ | test⟩ := e
    · exact absurd rfl (h (name, none) (by simp))
    · have hrest : ∀ e ∈ rest, e.2 ≠ none := fun e he => h e (List.mem_cons_of_mem _ he)
      have := ih hrest
      simp only [stored, namesOf] at this ⊢
      simp [this]

theorem mem_stored (tests : List (String × Option TestCase)) (name : String) (tc : TestCase) :
    (name, tc) ∈ stored tests ↔ ∃ entry, (name, some entry) ∈ tests ∧ tc = defaultOutput entry := by
  simp only [stored, List.mem_filterMap, Option.map_eq_some', Prod.mk.injEq]
  constructor
  · rintro ⟨⟨n, o⟩, hmem, entry, ho, hn, hd⟩
    simp only at ho hn
    subst ho hn
    exact ⟨entry, hmem, hd.symm⟩
  · rintro ⟨entry, hmem, hd⟩
    exact ⟨(name, some entry), hmem, entry, rfl, rfl, hd.symm⟩

theorem lookup_of_mem_of_nodup (ret : TestMap) (name : String) (tc : TestCase)
    (hnd : (ret.map Prod.fst).Nodup) (hmem : (name, tc) ∈ ret) : ret.lookup name = some tc := by
  induction ret with
  | nil => simp at hmem
  | cons e rest ih =>
    obtain ⟨k, v⟩ := e
    simp only [List.map_cons, List.nodup_cons, List.mem_map, not_exists, not_and] at hnd
    rcases List.mem_cons.1 hmem with heq | hin
    · simp only [Prod.mk.injEq] at heq
      obtain ⟨rfl, rfl⟩ := heq
      simp
    · have hne : name ≠ k := by
        rintro rfl
        exact hnd.1 (name, tc) hin rfl
      rw [List.lookup_cons]
      have hb : (name == k) = false := by simpa using hne
      rw [hb]
      exact ih hnd.2 hin

theorem mem_of_lookup (ret : TestMap) (name : String) (tc : TestCase)
    (h : ret.lookup name = some tc) : (name, tc) ∈ ret := by
  obtain ⟨l1, l2, rfl, -⟩ := List.lookup_eq_some_iff.1 h
  simp

theorem defaultOutput_fields (entry : TestCase) :
    (defaultOutput entry).Current = entry.Current ∧
    (defaultOutput entry).Desired = entry.Desired ∧
    (defaultOutput entry).Output = (if entry.Output = "" then entry.Desired else entry.Output) := by
  unfold defaultOutput
  split <;> simp_all

theorem ReadTests_of_glob (fs : Files) (pattern : String) (files : List String)
    (h : fs.Glob pattern = (files, none)) : ReadTests fs pattern = readFiles fs [] files := by
  simp [ReadTests, h]

theorem ReadTests_returned (fs : Files) (pattern : String) (ret : TestMap)
    (h : ReadTests fs pattern = Loaded.returned ret none) :
    (fs.Glob pattern).2 = none ∧
    (∀ file ∈ (fs.Glob pattern).1, loads fs file = true) ∧
    (∀ e ∈ allEntries fs (fs.Glob pattern).1, e.2 ≠ none) ∧
    (namesOf (allEntries fs (fs.Glob pattern).1)).Nodup ∧
    ret = stored (allEntries fs (fs.Glob pattern).1) := by
  rcases hg : fs.Glob pattern with ⟨files, _ | e⟩
  · rw [ReadTests_of_glob fs pattern files hg] at h
    obtain ⟨h1, h2⟩ := readFiles_returned fs [] ret files h
    obtain ⟨h3, -, h5, h6⟩ := (addTests_inl_iff [] ret _).1 h2
    exact ⟨rfl, h1, h3, h5, by simpa using h6⟩
  · simp [ReadTests, hg] at h

/-! ## Lemmas on `RunTest` -/

theorem checkDesired_of_generated {σ Mode Stmt : Type} (db : Database σ)
    (schema : Schema Mode Stmt) (test : TestCase) (mode : Mode) (s s1 : σ) (calls : List Call)
    (reports : List Report) (dump : String) (ddls : List String)
    (hDump : db.DumpDDLs s = (s1, dump, none))
    (hGen : schema.GenerateIdempotentDDLs mode test.Desired dump = (ddls, none)) :
    checkDesired db schema test mode s calls reports =
      ⟨s1, calls ++ [Call.dump],
        reports ++ (if ddls = [] then [] else [Report.modified (JoinDDLs ddls)]),
        Ending.completed⟩ := by
  cases ddls with
  | nil => simp [checkDesired, hDump, hGen]
  | cons d ds => simp [checkDesired, hDump, hGen]

theorem checkDesired_reports {σ Mode Stmt : Type} (db : Database σ)
    (schema : Schema Mode Stmt) (test : TestCase) (mode : Mode) (s : σ) (calls : List Call)
    (reports : List Report) :
    (∃ more, (checkDesired db schema test mode s calls reports).reports = reports ++ more ∧
      ∀ expected actual, Report.mismatch expected actual ∉ more) ∧
    (∃ dumps, (checkDesired db schema test mode s calls reports).calls = calls ++ dumps) := by
  rcases hd : db.DumpDDLs s with ⟨s1, dump, _ | e⟩
  · rcases hg : schema.GenerateIdempotentDDLs mode test.Desired dump with ⟨ddls, _ | e⟩
    · rw [checkDesired_of_generated db schema test mode s s1 calls reports dump ddls hd hg]
      refine ⟨⟨_, rfl, ?_⟩, ⟨_, rfl⟩⟩
      intro expected actual
      split <;> simp
    · simp only [checkDesired, hd, hg]
      exact ⟨⟨[], by simp, by simp⟩, ⟨_, rfl⟩⟩
  · simp only [checkDesired, hd]
    exact ⟨⟨[], by simp, by simp⟩, ⟨_, rfl⟩⟩

theorem checkDesired_passed {σ Mode Stmt : Type} (db : Database σ)
    (schema : Schema Mode Stmt) (test : TestCase) (mode : Mode) (s : σ) (calls : List Call)
    (reports : List Report) (h : (checkDesired db schema test mode s calls reports).passed) :
    reports = [] ∧ ∃ s1 dump, db.DumpDDLs s = (s1, dump, none) ∧
      schema.GenerateIdempotentDDLs mode test.Desired dump = ([], none) := by
  rcases hd : db.DumpDDLs s with ⟨s1, dump, _ | e⟩
  · rcases hg : schema.GenerateIdempotentDDLs mode test.Desired dump with ⟨ddls, _ | e⟩
    · rw [checkDesired_of_generated db schema test mode s s1 calls reports dump ddls hd hg] at h
      obtain ⟨-, hr⟩ := h
      simp only [List.append_eq_nil] at hr
      cases ddls with
      | nil => exact ⟨hr.1, s1, dump, rfl, hg⟩
      | cons d ds => simp at hr
    · simp [checkDesired, hd, hg, TestRun.passed] at h
  · simp [checkDesired, hd, TestRun.passed] at h

theorem mainTest_of_generated {σ Mode Stmt : Type} (db : Database σ)
    (schema : Schema Mode Stmt) (test : TestCase) (mode : Mode) (s s1 : σ) (calls : List Call)
    (reports : List Report) (dump : String) (ddls : List String)
    (hDump : db.DumpDDLs s = (s1, dump, none))
    (hGen : schema.GenerateIdempotentDDLs mode test.Desired dump = (ddls, none)) :
    mainTest db schema test mode s calls reports =
      match (RunDDLs db s1 ddls).err with
      | some err =>
        ⟨(RunDDLs db s1 ddls).state, calls ++ [Call.dump] ++ (RunDDLs db s1 ddls).calls,
          reports ++ (if test.Output = JoinDDLs ddls then []
            else [Report.mismatch test.Output (JoinDDLs ddls)]),
          Ending.tFatal err⟩
      | none =>
        checkDesired db schema test mode (RunDDLs db s1 ddls).state
          (calls ++ [Call.dump] ++ (RunDDLs db s1 ddls).calls)
          (reports ++ (if test.Output = JoinDDLs ddls then []
            else [Report.mismatch test.Output (JoinDDLs ddls)])) := by
  rcases hr : RunDDLs db s1 ddls with ⟨s2, made, _ | e⟩
  · by_cases ho : test.Output = JoinDDLs ddls
    · simp [mainTest, hDump, hGen, hr, ho]
    · simp [mainTest, hDump, hGen, hr, ho]
  · by_cases ho : test.Output = JoinDDLs ddls
    · simp [mainTest, hDump, hGen, hr, ho]
    · simp [mainTest, hDump, hGen, hr, ho]

theorem mainTest_reports {σ Mode Stmt : Type} (db : Database σ)
    (schema : Schema Mode Stmt) (test : TestCase) (mode : Mode) (s : σ) (calls : List Call)
    (reports : List Report) :
    ∃ more, (mainTest db schema test mode s calls reports).reports = reports ++ more ∧
      ∀ expected actual, Report.mismatch expected actual ∈ more →
        ∃ s1 dump ddls, db.DumpDDLs s = (s1, dump, none) ∧
          schema.GenerateIdempotentDDLs mode test.Desired dump = (ddls, none) ∧
          expected = test.Output ∧ actual = JoinDDLs ddls ∧ test.Output ≠ JoinDDLs ddls := by
  rcases hd : db.DumpDDLs s with ⟨s1, dump, _ | e⟩
  · rcases hg : schema.GenerateIdempotentDDLs mode test.Desired dump with ⟨ddls, _ | e⟩
    · rw [mainTest_of_generated db schema test mode s s1 calls reports dump ddls hd hg]
      have hmm : ∀ expected actual,
          Report.mismatch expected actual ∈
            (if test.Output = JoinDDLs ddls then []
              else [Report.mismatch test.Output (JoinDDLs ddls)]) →
          ∃ s1' dump' ddls', (s1, dump, (none : Option Error)) = (s1', dump', none) ∧
            schema.GenerateIdempotentDDLs mode test.Desired dump' = (ddls', none) ∧
            expected = test.Output ∧ actual = JoinDDLs ddls' ∧
            test.Output ≠ JoinDDLs ddls' := by
        intro expected actual hm
        by_cases ho : test.Output = JoinDDLs ddls
        · simp [ho] at hm
        · simp only [ho, if_false, List.mem_singleton, Report.mismatch.injEq] at hm
          exact ⟨s1, dump, ddls, rfl, hg, hm.1, hm.2, ho⟩
      cases hr : (RunDDLs db s1 ddls).err with
      | some err =>
        refine ⟨_, rfl, hmm⟩
      | none =>
        simp only
        obtain ⟨⟨more, hmore, hno⟩, -⟩ := checkDesired_reports db schema test mode
          (RunDDLs db s1 ddls).state (calls ++ [Call.dump] ++ (RunDDLs db s1 ddls).calls)
          (reports ++ (if test.Output = JoinDDLs ddls then []
            else [Report.mismatch test.Output (JoinDDLs ddls)]))
        rw [hmore]
        refine ⟨_, List.append_assoc _ _ _, ?_⟩
        intro expected actual hm
        rcases List.mem_append.1 hm with hm | hm
        · exact hmm expected actual hm
        · exact absurd hm (hno expected actual)
    · simp only [mainTest, hd, hg]
      exact ⟨[], by simp, by simp⟩
  · simp only [mainTest, hd]
    exact ⟨[], by simp, by simp⟩

theorem mainTest_passed {σ Mode Stmt : Type} (db : Database σ)
    (schema : Schema Mode Stmt) (test : TestCase) (mode : Mode) (s : σ) (calls : List Call)
    (reports : List Report) (h : (mainTest db schema test mode s calls reports).passed) :
    reports = [] ∧ ∃ s1 dump ddls s2 made s3 dump3,
      db.DumpDDLs s = (s1, dump, none) ∧
      schema.GenerateIdempotentDDLs mode test.Desired dump = (ddls, none) ∧
      test.Output = JoinDDLs ddls ∧
      RunDDLs db s1 ddls = ⟨s2, made, none⟩ ∧
      db.DumpDDLs s2 = (s3, dump3, none) ∧
      schema.GenerateIdempotentDDLs mode test.Desired dump3 = ([], none) := by
  rcases hd : db.DumpDDLs s with ⟨s1, dump, _ | e⟩
  · rcases hg : schema.GenerateIdempotentDDLs mode test.Desired dump with ⟨ddls, _ | e⟩
    · rw [mainTest_of_generated db schema test mode s s1 calls reports dump ddls hd hg] at h
      rcases hr : RunDDLs db s1 ddls with ⟨s2, made, _ | e⟩
      · simp only [hr] at h
        obtain ⟨hrep, s3, dump3, hd3, hg3⟩ := checkDesired_passed db schema test mode _ _ _ h
        simp only [List.append_eq_nil] at hrep
        have ho : test.Output = JoinDDLs ddls := by
          by_contra hne
          simp [hne] at hrep
        exact ⟨hrep.1, s1, dump, ddls, s2, made, s3, dump3, rfl, hg, ho, hr, hd3, hg3⟩
      · simp [hr, TestRun.passed] at h
    · simp [mainTest, hd, hg, TestRun.passed] at h
  · simp [mainTest, hd, TestRun.passed] at h

theorem checkCurrent_of_generated {σ Mode Stmt : Type} (db : Database σ)
    (schema : Schema Mode Stmt) (test : TestCase) (mode : Mode) (s s1 : σ) (calls : List Call)
    (dump : String) (ddls : List String)
    (hDump : db.DumpDDLs s = (s1, dump, none))
    (hGen : schema.GenerateIdempotentDDLs mode test.Current dump = (ddls, none)) :
    checkCurrent db schema test mode s calls =
      mainTest db schema test mode s1 (calls ++ [Call.dump])
        (if ddls = [] then [] else [Report.modified (JoinDDLs ddls)]) := by
  cases ddls with
  | nil => simp [checkCurrent, hDump, hGen]
  | cons d ds => simp [checkCurrent, hDump, hGen]

theorem RunTest_of_prepared {σ Mode Stmt : Type} (db : Database σ)
    (schema : Schema Mode Stmt) (test : TestCase) (mode : Mode) (s s1 : σ) (made : List Call)
    (hPrep : prepareCurrent db schema test mode s = ⟨s1, made, none⟩) :
    RunTest db schema test mode s = checkCurrent db schema test mode s1 made := by
  simp [RunTest, hPrep]

theorem RunTest_of_checked {σ Mode Stmt : Type} (db : Database σ)
    (schema : Schema Mode Stmt) (test : TestCase) (mode : Mode) (s s1 s2 : σ)
    (made : List Call) (dump : String) (ddls : List String)
    (hPrep : prepareCurrent db schema test mode s = ⟨s1, made, none⟩)
    (hDump : db.DumpDDLs s1 = (s2, dump, none))
    (hGen : schema.GenerateIdempotentDDLs mode test.Current dump = (ddls, none)) :
    RunTest db schema test mode s =
      mainTest db schema test mode s2 (made ++ [Call.dump])
        (if ddls = [] then [] else [Report.modified (JoinDDLs ddls)]) := by
  rw [RunTest_of_prepared db schema test mode s s1 made hPrep,
    checkCurrent_of_generated db schema test mode s1 s2 made dump ddls hDump hGen]

theorem RunTest_reaches_main {σ Mode Stmt : Type} (db : Database σ)
    (schema : Schema Mode Stmt) (test : TestCase) (mode : Mode) (s : σ) :
    (∃ s1 made s2 dump ddls,
      prepareCurrent db schema test mode s = ⟨s1, made, none⟩ ∧
      db.DumpDDLs s1 = (s2, dump, none) ∧
      schema.GenerateIdempotentDDLs mode test.Current dump = (ddls, none)) ∨
    ((RunTest db schema test mode s).reports = [] ∧
      (RunTest db schema test mode s).ending ≠ Ending.completed) := by
  rcases hp : prepareCurrent db schema test mode s with ⟨s1, made, _ | e⟩
  · rcases hd : db.DumpDDLs s1 with ⟨s2, dump, _ | e⟩
    · rcases hg : schema.GenerateIdempotentDDLs mode test.Current dump with ⟨ddls, _ | e⟩
      · left
        exact ⟨s1, made, s2, dump, ddls, rfl, hd, hg⟩
      · right
        simp [RunTest, hp, checkCurrent, hd, hg]
    · right
      simp [RunTest, hp, checkCurrent, hd]
  · right
    simp [RunTest, hp]

/-! ## The claims -/

/-- C4: `JoinDDLs` returns the statements in list order, each one (the last
included) followed by `";\n"`; the result is empty exactly for the empty list,
and joining a concatenation is concatenating the joins. -/
theorem JoinDDLs_terminates_each (ddls a b : List String) :
    JoinDDLs ddls = joinedText ddls ∧
    JoinDDLs ddls = String.join (ddls.map (fun ddl => ddl ++ ";\n")) ∧
    (JoinDDLs ddls = "" ↔ ddls = []) ∧
    JoinDDLs (a ++ b) = JoinDDLs a ++ JoinDDLs b := by
  refine ⟨JoinDDLs_eq_joinedText ddls, ?_, ?_, ?_⟩
  · rw [JoinDDLs_eq_joinedText]
    induction ddls with
    | nil => simp [joinedText, String.join]
    | cons d ds ih =>
      simp only [joinedText, List.map_cons, String.join, List.foldl_cons] at ih ⊢
      rw [foldl_join_acc, ← ih]
      simp [String.append_assoc]
  · rw [JoinDDLs_eq_joinedText]
    exact joinedText_eq_empty ddls
  · simp only [JoinDDLs_eq_joinedText]
    exact joinedText_append a b

/-- C6: when `ParseDDLs` fails, `SplitDDLs` returns the nil list with that same
error, whatever statements the parser handed back; when it succeeds with
statements `s1..sn`, `SplitDDLs` returns `[s1.Statement(), ..., sn.Statement()]`
in the parser's order, a list of length `n`, and no error. -/
theorem SplitDDLs_all_or_nothing {Mode Stmt : Type} (schema : Schema Mode Stmt) (mode : Mode)
    (str : String) :
    (∀ statements err, schema.ParseDDLs mode str = (statements, some err) →
      SplitDDLs schema mode str = ([], some err)) ∧
    (∀ statements, schema.ParseDDLs mode str = (statements, none) →
      SplitDDLs schema mode str = (statements.map schema.Statement, none) ∧
      (SplitDDLs schema mode str).1.length = statements.length ∧
      ∀ i (h : i < statements.length),
        (SplitDDLs schema mode str).1[i]? = some (schema.Statement (statements.get ⟨i, h⟩))) := by
  constructor
  · intro statements err h
    simp [SplitDDLs, h]
  · intro statements h
    have hs : SplitDDLs schema mode str = (statements.map schema.Statement, none) := by
      simp [SplitDDLs, h, foldl_append_singleton]
    refine ⟨hs, by simp [hs], ?_⟩
    intro i hi
    simp [hs, List.getElem?_eq_getElem hi]

/-- Witness of C6: a failing parse gives the nil list and the error of the
parser; a successful one gives the text of its statement. -/
theorem SplitDDLs_all_or_nothing_witness :
    SplitDDLs pickySchema () "SELECT 1" = ([], some "unsupported statement") ∧
    SplitDDLs pickySchema () "CREATE TABLE a (id int)" = (["CREATE TABLE a (id int)"], none) :=
  ⟨(SplitDDLs_all_or_nothing pickySchema () "SELECT 1").1 ["SELECT"] "unsupported statement" rfl,
    ((SplitDDLs_all_or_nothing pickySchema () "CREATE TABLE a (id int)").2
      ["CREATE TABLE a (id int)"] rfl).1⟩

/-- C2: when `Begin` succeeds, `RunDDLs` opens that one transaction and runs
the statements one at a time in list order. If the `Exec` of statement `k` is
the first to fail, the calls are `Begin`, the `Exec` of statements `0..k`, then
`Rollback`: no later statement runs and `Commit` is never called. If every
`Exec` succeeds, the calls are `Begin`, one `Exec` per statement in order, then
`Commit`. So `Commit` is called exactly when every `Exec` succeeded. -/
theorem RunDDLs_single_transaction {σ : Type} (db : Database σ) (s s1 : σ)
    (ddls : List String) (hBegin : db.Begin s = (s1, none)) :
    (∀ k err s2, firstFailure db s1 ddls = some (k, err, s2) →
      k < ddls.length ∧
      (RunDDLs db s ddls).calls
        = Call.begin :: ((ddls.take (k + 1)).map Call.exec ++ [Call.rollback]) ∧
      execsOf (RunDDLs db s ddls).calls = ddls.take (k + 1) ∧
      Call.rollback ∈ (RunDDLs db s ddls).calls ∧
      Call.commit ∉ (RunDDLs db s ddls).calls) ∧
    (firstFailure db s1 ddls = none →
      (RunDDLs db s ddls).calls = Call.begin :: (ddls.map Call.exec ++ [Call.commit]) ∧
      execsOf (RunDDLs db s ddls).calls = ddls ∧
      Call.rollback ∉ (RunDDLs db s ddls).calls) ∧
    (Call.commit ∈ (RunDDLs db s ddls).calls ↔ firstFailure db s1 ddls = none) ∧
    (RunDDLs db s ddls).calls.count Call.begin = 1 ∧
    (∃ n, execsOf (RunDDLs db s ddls).calls = ddls.take n) := by
  obtain ⟨hc, -, -⟩ := RunDDLs_of_begin db s s1 ddls hBegin
  have hfail : ∀ k err s2, firstFailure db s1 ddls = some (k, err, s2) →
      k < ddls.length ∧
      (RunDDLs db s ddls).calls
        = Call.begin :: ((ddls.take (k + 1)).map Call.exec ++ [Call.rollback]) ∧
      execsOf (RunDDLs db s ddls).calls = ddls.take (k + 1) ∧
      Call.rollback ∈ (RunDDLs db s ddls).calls ∧
      Call.commit ∉ (RunDDLs db s ddls).calls := by
    intro k err s2 hf
    obtain ⟨hk, hcalls, -, -⟩ := runStatements_failure db s1 ddls k err s2 hf
    have hall : (RunDDLs db s ddls).calls
        = Call.begin :: ((ddls.take (k + 1)).map Call.exec ++ [Call.rollback]) := by
      rw [hc, hcalls]
    rw [hall]
    generalize ddls.take (k + 1) = ran
    refine ⟨hk, rfl, ?_, ?_, ?_⟩
    · simp [execsOf, execsOf_map_exec]
    · simp
    · simp
  have hok : firstFailure db s1 ddls = none →
      (RunDDLs db s ddls).calls = Call.begin :: (ddls.map Call.exec ++ [Call.commit]) ∧
      execsOf (RunDDLs db s ddls).calls = ddls ∧
      Call.rollback ∉ (RunDDLs db s ddls).calls := by
    intro hf
    have hall : (RunDDLs db s ddls).calls
        = Call.begin :: (ddls.map Call.exec ++ [Call.commit]) := by
      rw [hc, runStatements_success db s1 ddls hf]
    refine ⟨hall, ?_, ?_⟩
    · rw [hall]
      simp [execsOf, execsOf_map_exec]
    · rw [hall]
      simp
  refine ⟨hfail, hok, ?_, ?_, ?_⟩
  · constructor
    · intro hmem
      cases hf : firstFailure db s1 ddls with
      | none => rfl
      | some r =>
        obtain ⟨k, err, s2⟩ := r
        exact absurd hmem (hfail k err s2 hf).2.2.2.2
    · intro hf
      rw [(hok hf).1]
      simp
  · cases hf : firstFailure db s1 ddls with
    | none =>
      rw [(hok hf).1]
      simp [List.count_cons, List.count_append, List.count_eq_zero]
    | some r =>
      obtain ⟨k, err, s2⟩ := r
      rw [(hfail k err s2 hf).2.1]
      generalize ddls.take (k + 1) = ran
      simp [List.count_cons, List.count_append, List.count_eq_zero]
  · cases hf : firstFailure db s1 ddls with
    | none => exact ⟨ddls.length, by rw [(hok hf).2.1]; simp⟩
    | some r =>
      obtain ⟨k, err, s2⟩ := r
      exact ⟨k + 1, (hfail k err s2 hf).2.2.1⟩

/-- Witness of C2: on a database that accepts everything, two statements run
in order between `Begin` and `Commit`. -/
theorem RunDDLs_single_transaction_witness :
    quietDb.Begin () = ((), none) ∧
    (RunDDLs quietDb () ["CREATE TABLE a (id int)", "CREATE TABLE b (id int)"]).calls
      = [Call.begin, Call.exec "CREATE TABLE a (id int)", Call.exec "CREATE TABLE b (id int)",
          Call.commit] :=
  ⟨rfl, ((RunDDLs_single_transaction quietDb () ()
    ["CREATE TABLE a (id int)", "CREATE TABLE b (id int)"] rfl).2.1 rfl).1⟩

/-- C3, as the code has it: when the `Exec` of a statement fails, `RunDDLs`
returns the error of that first failing `Exec` if the `Rollback` that follows
succeeds, and the error of the `Rollback` if the `Rollback` fails. -/
theorem RunDDLs_error_after_rollback {σ : Type} (db : Database σ) (s s1 s2 : σ)
    (ddls : List String) (k : Nat) (err : Error) (hBegin : db.Begin s = (s1, none))
    (hFail : firstFailure db s1 ddls = some (k, err, s2)) :
    ((db.Rollback s2).2 = none → (RunDDLs db s ddls).err = some err) ∧
    (∀ rollbackErr, (db.Rollback s2).2 = some rollbackErr →
      (RunDDLs db s ddls).err = some rollbackErr) := by
  obtain ⟨-, he, -⟩ := RunDDLs_of_begin db s s1 ddls hBegin
  obtain ⟨-, -, -, herr⟩ := runStatements_failure db s1 ddls k err s2 hFail
  rw [he, herr]
  constructor
  · intro h
    simp [h]
  · intro rollbackErr h
    simp [h]

/-- Witness of C3: the second statement is never reached, the first one fails,
the `Rollback` succeeds and the error of the `Exec` comes back. -/
theorem RunDDLs_error_after_rollback_witness :
    rejectingDb.Begin () = ((), none) ∧
    firstFailure rejectingDb () ["DROP TABLE a", "DROP TABLE b"] = some (0, "exec failed", ()) ∧
    (RunDDLs rejectingDb () ["DROP TABLE a", "DROP TABLE b"]).err = some "exec failed" :=
  ⟨rfl, rfl, (RunDDLs_error_after_rollback rejectingDb () () () ["DROP TABLE a", "DROP TABLE b"]
    0 "exec failed" rfl rfl).1 rfl⟩

/-- Counterexample to C3 as stated: the `Exec` of the statement fails with
`"exec failed"`, the `Rollback` fails too, and `RunDDLs` returns the error of
the `Rollback`, not that of the `Exec`. -/
theorem RunDDLs_returns_rollback_error :
    brokenDb.Begin () = ((), none) ∧
    firstFailure brokenDb () ["DROP TABLE a"] = some (0, "exec failed", ()) ∧
    (RunDDLs brokenDb () ["DROP TABLE a"]).err = some "rollback failed" ∧
    (RunDDLs brokenDb () ["DROP TABLE a"]).err ≠ some "exec failed" :=
  ⟨rfl, rfl, rfl, by decide⟩

/-- C5: every test case `ReadTests` returns under a name comes from an entry of
that name in a matched file, with `Current` and `Desired` unchanged and with
`Output` the entry's `Output` when that is non-empty and the entry's `Desired`
when it is empty or omitted; and when `ReadTests` returns without error, every
entry of every matched file is returned so. -/
theorem ReadTests_output_defaults_to_desired (fs : Files) (pattern : String) (ret : TestMap)
    (err : Option Error) (h : ReadTests fs pattern = Loaded.returned ret err) :
    (∀ name tc, ret.lookup name = some tc →
      ∃ file ∈ (fs.Glob pattern).1, ∃ entry, (name, some entry) ∈ entriesOf fs file ∧
        tc.Current = entry.Current ∧ tc.Desired = entry.Desired ∧
        tc.Output = (if entry.Output = "" then entry.Desired else entry.Output)) ∧
    (err = none → ∀ file ∈ (fs.Glob pattern).1, ∀ name entry,
      (name, some entry) ∈ entriesOf fs file →
      ∃ tc, ret.lookup name = some tc ∧
        tc.Current = entry.Current ∧ tc.Desired = entry.Desired ∧
        tc.Output = (if entry.Output = "" then entry.Desired else entry.Output)) := by
  cases err with
  | some e =>
    have hret : ret = [] := by
      rcases hg : fs.Glob pattern with ⟨files, _ | ge⟩
      · rw [ReadTests_of_glob fs pattern files hg] at h
        exact readFiles_returned_error fs [] ret files e h
      · simp only [ReadTests, hg, Loaded.returned.injEq] at h
        exact h.1.symm
    subst hret
    simp
  | none =>
    obtain ⟨-, -, hnil, hnd, hret⟩ := ReadTests_returned fs pattern ret h
    constructor
    · intro name tc hl
      have hmem := mem_of_lookup ret name tc hl
      rw [hret, mem_stored] at hmem
      obtain ⟨entry, hin, rfl⟩ := hmem
      obtain ⟨file, hfile, hentry⟩ := (mem_allEntries fs _ _).1 hin
      exact ⟨file, hfile, entry, hentry, defaultOutput_fields entry⟩
    · intro _ file hfile name entry hentry
      refine ⟨defaultOutput entry, ?_, defaultOutput_fields entry⟩
      apply lookup_of_mem_of_nodup
      · rw [hret, keys_stored _ hnil]
        exact hnd
      · rw [hret, mem_stored]
        exact ⟨entry, (mem_allEntries fs _ _).2 ⟨file, hfile, hentry⟩, rfl⟩

/-- Witness of C5: of two files, the first gives its `Output` and the second
leaves it out and gets its `Desired`. -/
theorem ReadTests_output_defaults_to_desired_witness :
    ReadTests twoFiles "*.yml" = Loaded.returned twoTests none ∧
    ∃ tc, twoTests.lookup "CreateTable" = some tc ∧
      tc.Current = "" ∧ tc.Desired = "CREATE TABLE b (id int);\n" ∧
      tc.Output = "CREATE TABLE b (id int);\n" :=
  ⟨by decide, (ReadTests_output_defaults_to_desired twoFiles "*.yml" twoTests none
    (by decide)).2 rfl "b.yml" (by decide) "CreateTable" ⟨"", "CREATE TABLE b (id int);\n", ""⟩
    (by decide)⟩

/-- C9, as the code has it: `ReadTests` takes the matched files in order and
the first failure decides. (a) When globbing fails it returns the nil map with
that error. (b) When it returns a map without error, every matched file was
read and decoded, the names of the map are distinct and are exactly the test
case names of the matched files, and its size is the sum of the per-file
counts. (c) When two matched files define a test case of the same name it never
returns a map without error, and it aborts in `log.Fatal`, naming a test case
met twice, when every file up to the second of the two is read and decoded and
holds no nil entry. (d) When reading or decoding a file fails, and the files
before it are read and decoded, hold no nil entry and define distinct names, it
returns the nil map with that error. -/
theorem ReadTests_first_failure_decides (fs : Files) (pattern : String) :
    (∀ files err, fs.Glob pattern = (files, some err) →
      ReadTests fs pattern = Loaded.returned [] (some err)) ∧
    (∀ files ret, fs.Glob pattern = (files, none) →
      ReadTests fs pattern = Loaded.returned ret none →
      (∀ file ∈ files, loads fs file = true) ∧
      (ret.map Prod.fst).Nodup ∧
      (∀ name, name ∈ ret.map Prod.fst ↔ ∃ file ∈ files, name ∈ namesOf (entriesOf fs file)) ∧
      ret.length = (files.map (fun file => (entriesOf fs file).length)).sum) ∧
    (∀ before first between second after name,
      fs.Glob pattern = (before ++ first :: (between ++ second :: after), none) →
      name ∈ namesOf (entriesOf fs first) → name ∈ namesOf (entriesOf fs second) →
      (∀ ret, ReadTests fs pattern ≠ Loaded.returned ret none) ∧
      ((∀ file ∈ before ++ first :: (between ++ [second]),
          loads fs file = true ∧ ∀ e ∈ entriesOf fs file, e.2 ≠ none) →
        ∃ met, ReadTests fs pattern = Loaded.fatal (multipleMessage met) ∧
          2 ≤ (namesOf (allEntries fs (before ++ first :: (between ++ [second])))).count met)) ∧
    (∀ before file after err, fs.Glob pattern = (before ++ file :: after, none) →
      (∀ earlier ∈ before, loads fs earlier = true ∧ ∀ e ∈ entriesOf fs earlier, e.2 ≠ none) →
      (namesOf (allEntries fs before)).Nodup →
      loadError fs file = some err →
      ReadTests fs pattern = Loaded.returned [] (some err)) := by
  refine ⟨?_, ?_, ?_, ?_⟩
  · intro files err hg
    simp [ReadTests, hg]
  · intro files ret hg h
    obtain ⟨-, hloads, hnil, hnd, hret⟩ := ReadTests_returned fs pattern ret h
    rw [hg] at hloads hnil hnd hret
    simp only at hloads hnil hnd hret
    have hkeys : ret.map Prod.fst = namesOf (allEntries fs files) := by
      rw [hret, keys_stored _ hnil]
    refine ⟨hloads, by rw [hkeys]; exact hnd, ?_, ?_⟩
    · intro name
      rw [hkeys]
      simp only [namesOf, List.mem_map]
      constructor
      · rintro ⟨e, he, rfl⟩
        obtain ⟨file, hfile, hentry⟩ := (mem_allEntries fs _ _).1 he
        exact ⟨file, hfile, e, hentry, rfl⟩
      · rintro ⟨file, hfile, e, hentry, rfl⟩
        exact ⟨e, (mem_allEntries fs _ _).2 ⟨file, hfile, hentry⟩, rfl⟩
    · have hlen : ret.length = (ret.map Prod.fst).length := by simp
      rw [hlen, hkeys, namesOf, List.length_map, length_allEntries]
  · intro before first between second after name hg h1 h2
    have hsplit : before ++ first :: (between ++ second :: after)
        = (before ++ first :: (between ++ [second])) ++ after := by simp
    have hdup : ¬ (namesOf (allEntries fs (before ++ first :: (between ++ [second])))).Nodup := by
      intro hnd
      rw [allEntries_append, allEntries, allEntries_append, allEntries, allEntries] at hnd
      simp only [namesOf, List.map_append, List.append_nil] at hnd
      have hd := (List.nodup_append.1 (List.nodup_append.1 hnd).2.1).2.2
      exact hd (by simpa [namesOf] using h1)
        (List.mem_append_right _ (by simpa [namesOf] using h2))
    constructor
    · intro ret h
      obtain ⟨-, -, -, hnd, -⟩ := ReadTests_returned fs pattern ret h
      rw [hg] at hnd
      simp only at hnd
      rw [hsplit, allEntries_append] at hnd
      simp only [namesOf, List.map_append] at hnd
      exact hdup (List.nodup_append.1 hnd).1
    · intro hfront
      rw [ReadTests_of_glob fs pattern _ hg, hsplit,
        readFiles_append_of_loads fs [] _ after (fun file hf => (hfront file hf).1)]
      cases hadd : addTests [] (allEntries fs (before ++ first :: (between ++ [second]))) with
      | inl ret1 =>
        exact absurd ((addTests_inl_iff [] ret1 _).1 hadd).2.2.1 hdup
      | inr stop =>
        rcases addTests_inr [] _ stop hadd with ⟨-, e, he, hnone⟩ | ⟨met, rfl, hcount⟩
        · obtain ⟨file, hfile, hentry⟩ := (mem_allEntries fs _ _).1 he
          exact absurd hnone ((hfront file hfile).2 e hentry)
        · exact ⟨met, rfl, by simpa using hcount⟩
  · intro before file after err hg hbefore hnd herr
    rw [ReadTests_of_glob fs pattern _ hg,
      readFiles_append_of_loads fs [] before _ (fun x hx => (hbefore x hx).1)]
    have hadd : addTests [] (allEntries fs before) = Sum.inl (stored (allEntries fs before)) := by
      rw [addTests_inl_iff]
      refine ⟨?_, by simp, hnd, by simp⟩
      intro e he
      obtain ⟨x, hx, hentry⟩ := (mem_allEntries fs _ _).1 he
      exact (hbefore x hx).2 e hentry
    rw [hadd]
    exact readFiles_cons_of_loadError fs _ file after err herr

/-- Witness of C9: two files of one test case each give a map of two entries;
a file that cannot be read, met before any name repeats, gives its error. -/
theorem ReadTests_first_failure_decides_witness :
    (ReadTests twoFiles "*.yml" = Loaded.returned twoTests none ∧
      twoTests.length
        = (["a.yml", "b.yml"].map (fun file => (entriesOf twoFiles file).length)).sum) ∧
    ReadTests unreadableThenClash "*.yml" = Loaded.returned [] (some "permission denied") :=
  ⟨⟨by decide, ((ReadTests_first_failure_decides twoFiles "*.yml").2.1
      ["a.yml", "b.yml"] twoTests rfl (by decide)).2.2.2⟩,
    (ReadTests_first_failure_decides unreadableThenClash "*.yml").2.2.2
      [] "0c.yml" ["a.yml", "b.yml"] "permission denied" rfl (by simp) (by simp [allEntries, namesOf])
      (by decide)⟩

/-- Counterexample to C9 as stated. With the files `a.yml`, `b.yml`, `c.yml`,
where the first two define the same name and the third cannot be read,
`ReadTests` aborts in `log.Fatal` and does not return the nil map with the
error of `c.yml`. With the files `0c.yml`, `a.yml`, `b.yml`, where the first
cannot be read, two matched files define the same name and `ReadTests` returns
the error of `0c.yml` and does not abort. -/
theorem ReadTests_clash_and_unreadable :
    (clashThenUnreadable.Glob "*.yml" = (["a.yml", "b.yml", "c.yml"], none) ∧
      loadError clashThenUnreadable "c.yml" = some "permission denied" ∧
      ReadTests clashThenUnreadable "*.yml" = Loaded.fatal (multipleMessage "CreateTable") ∧
      ReadTests clashThenUnreadable "*.yml" ≠ Loaded.returned [] (some "permission denied")) ∧
    (unreadableThenClash.Glob "*.yml" = (["0c.yml", "a.yml", "b.yml"], none) ∧
      loadError unreadableThenClash "0c.yml" = some "permission denied" ∧
      "CreateTable" ∈ namesOf (entriesOf unreadableThenClash "a.yml") ∧
      "CreateTable" ∈ namesOf (entriesOf unreadableThenClash "b.yml") ∧
      ReadTests unreadableThenClash "*.yml" = Loaded.returned [] (some "permission denied") ∧
      ∀ msg, ReadTests unreadableThenClash "*.yml" ≠ Loaded.fatal msg) :=
  ⟨⟨rfl, by decide, by decide, by decide⟩, ⟨rfl, by decide, by decide, by decide, by decide,
    fun msg h => by
      have h2 : ReadTests unreadableThenClash "*.yml"
          = Loaded.returned [] (some "permission denied") := by decide
      rw [h2] at h
      exact Loaded.noConfusion h⟩⟩

/-- C7: `RunTest` asserts idempotence twice. When the run reaches the first
check and the list generated for `Current` against the dump taken after
`Current` was applied is non-empty, a failure is recorded; when the run
reaches the last check and the list generated for `Desired` against the dump
taken after `RunDDLs` applied the main test's statements is non-empty, a
failure is recorded; and a run that returns with no failure recorded went
through both checks with both lists empty. -/
theorem RunTest_asserts_idempotence_twice {σ Mode Stmt : Type} (db : Database σ)
    (schema : Schema Mode Stmt) (test : TestCase) (mode : Mode) (s : σ) :
    (∀ s1 made s2 dump ddls,
      prepareCurrent db schema test mode s = ⟨s1, made, none⟩ →
      db.DumpDDLs s1 = (s2, dump, none) →
      schema.GenerateIdempotentDDLs mode test.Current dump = (ddls, none) →
      ddls ≠ [] →
      Report.modified (JoinDDLs ddls) ∈ (RunTest db schema test mode s).reports) ∧
    (∀ s1 made s2 dump1 ddls1 s3 dump2 ddls2 s4 made2 s5 dump3 ddls3,
      prepareCurrent db schema test mode s = ⟨s1, made, none⟩ →
      db.DumpDDLs s1 = (s2, dump1, none) →
      schema.GenerateIdempotentDDLs mode test.Current dump1 = (ddls1, none) →
      db.DumpDDLs s2 = (s3, dump2, none) →
      schema.GenerateIdempotentDDLs mode test.Desired dump2 = (ddls2, none) →
      RunDDLs db s3 ddls2 = ⟨s4, made2, none⟩ →
      db.DumpDDLs s4 = (s5, dump3, none) →
      schema.GenerateIdempotentDDLs mode test.Desired dump3 = (ddls3, none) →
      ddls3 ≠ [] →
      Report.modified (JoinDDLs ddls3) ∈ (RunTest db schema test mode s).reports) ∧
    ((RunTest db schema test mode s).passed →
      ∃ s1 made s2 dump1 s3 dump2 ddls2 s4 made2 s5 dump3,
        prepareCurrent db schema test mode s = ⟨s1, made, none⟩ ∧
        db.DumpDDLs s1 = (s2, dump1, none) ∧
        schema.GenerateIdempotentDDLs mode test.Current dump1 = ([], none) ∧
        db.DumpDDLs s2 = (s3, dump2, none) ∧
        schema.GenerateIdempotentDDLs mode test.Desired dump2 = (ddls2, none) ∧
        RunDDLs db s3 ddls2 = ⟨s4, made2, none⟩ ∧
        db.DumpDDLs s4 = (s5, dump3, none) ∧
        schema.GenerateIdempotentDDLs mode test.Desired dump3 = ([], none)) := by
  refine ⟨?_, ?_, ?_⟩
  · intro s1 made s2 dump ddls hPrep hDump hGen hne
    rw [RunTest_of_checked db schema test mode s s1 s2 made dump ddls hPrep hDump hGen]
    obtain ⟨more, hmore, -⟩ := mainTest_reports db schema test mode s2 (made ++ [Call.dump])
      (if ddls = [] then [] else [Report.modified (JoinDDLs ddls)])
    rw [hmore]
    simp [hne]
  · intro s1 made s2 dump1 ddls1 s3 dump2 ddls2 s4 made2 s5 dump3 ddls3 hPrep hDump1 hGen1
      hDump2 hGen2 hRun hDump3 hGen3 hne
    rw [RunTest_of_checked db schema test mode s s1 s2 made dump1 ddls1 hPrep hDump1 hGen1,
      mainTest_of_generated db schema test mode s2 s3 _ _ dump2 ddls2 hDump2 hGen2]
    simp only [hRun]
    rw [checkDesired_of_generated db schema test mode s4 s5 _ _ dump3 ddls3 hDump3 hGen3]
    simp [hne]
  · intro hpass
    rcases RunTest_reaches_main db schema test mode s with
      ⟨s1, made, s2, dump1, ddls1, hPrep, hDump1, hGen1⟩ | ⟨-, hend⟩
    · rw [RunTest_of_checked db schema test mode s s1 s2 made dump1 ddls1 hPrep hDump1 hGen1]
        at hpass
      obtain ⟨hrep, s3, dump2, ddls2, s4, made2, s5, dump3, hDump2, hGen2, -, hRun, hDump3,
        hGen3⟩ := mainTest_passed db schema test mode s2 _ _ hpass
      have hnil : ddls1 = [] := by
        by_contra hne
        simp [hne] at hrep
      subst hnil
      exact ⟨s1, made, s2, dump1, s3, dump2, ddls2, s4, made2, s5, dump3, hPrep, hDump1, hGen1,
        hDump2, hGen2, hRun, hDump3, hGen3⟩
    · exact absurd hpass.1 hend

/-- Witness of C7: with a generator that never settles the first check records
its failure; with one that settles the run passes. -/
theorem RunTest_asserts_idempotence_twice_witness :
    Report.modified ";\n" ∈ (RunTest textDb restlessSchema createTable () "").reports ∧
    (RunTest textDb textSchema createTable () "").passed :=
  ⟨(RunTest_asserts_idempotence_twice textDb restlessSchema createTable () "").1
    "" [] "" "" [""] rfl rfl rfl (by decide), ⟨rfl, rfl⟩⟩

/-- C8: when the run reaches the main test, with `ddls` the list generated for
`Desired` against the dump taken after `Current` was prepared, an output
mismatch is recorded exactly when `test.Output` differs from `JoinDDLs ddls`,
the strings compared as they are; every mismatch recorded is that one; and the
next calls on the database are those of `RunDDLs` on that same `ddls`, followed
by the dump of the last check when `RunDDLs` succeeds. A run that records a
mismatch reached the main test. -/
theorem RunTest_main_check {σ Mode Stmt : Type} (db : Database σ)
    (schema : Schema Mode Stmt) (test : TestCase) (mode : Mode) (s : σ) :
    (∀ s1 made s2 dump1 ddls1 s3 dump ddls,
      prepareCurrent db schema test mode s = ⟨s1, made, none⟩ →
      db.DumpDDLs s1 = (s2, dump1, none) →
      schema.GenerateIdempotentDDLs mode test.Current dump1 = (ddls1, none) →
      db.DumpDDLs s2 = (s3, dump, none) →
      schema.GenerateIdempotentDDLs mode test.Desired dump = (ddls, none) →
      (Report.mismatch test.Output (JoinDDLs ddls) ∈ (RunTest db schema test mode s).reports
        ↔ test.Output ≠ JoinDDLs ddls) ∧
      (∀ expected actual,
        Report.mismatch expected actual ∈ (RunTest db schema test mode s).reports →
        expected = test.Output ∧ actual = JoinDDLs ddls) ∧
      (RunTest db schema test mode s).calls
        = made ++ [Call.dump, Call.dump] ++ (RunDDLs db s3 ddls).calls
          ++ (if (RunDDLs db s3 ddls).err = none then [Call.dump] else [])) ∧
    (∀ expected actual,
      Report.mismatch expected actual ∈ (RunTest db schema test mode s).reports →
      ∃ s1 made s2 dump1 ddls1 s3 dump ddls,
        prepareCurrent db schema test mode s = ⟨s1, made, none⟩ ∧
        db.DumpDDLs s1 = (s2, dump1, none) ∧
        schema.GenerateIdempotentDDLs mode test.Current dump1 = (ddls1, none) ∧
        db.DumpDDLs s2 = (s3, dump, none) ∧
        schema.GenerateIdempotentDDLs mode test.Desired dump = (ddls, none) ∧
        expected = test.Output ∧ actual = JoinDDLs ddls ∧ test.Output ≠ JoinDDLs ddls) := by
  have hback : ∀ expected actual,
      Report.mismatch expected actual ∈ (RunTest db schema test mode s).reports →
      ∃ s1 made s2 dump1 ddls1 s3 dump ddls,
        prepareCurrent db schema test mode s = ⟨s1, made, none⟩ ∧
        db.DumpDDLs s1 = (s2, dump1, none) ∧
        schema.GenerateIdempotentDDLs mode test.Current dump1 = (ddls1, none) ∧
        db.DumpDDLs s2 = (s3, dump, none) ∧
        schema.GenerateIdempotentDDLs mode test.Desired dump = (ddls, none) ∧
        expected = test.Output ∧ actual = JoinDDLs ddls ∧ test.Output ≠ JoinDDLs ddls := by
    intro expected actual hm
    rcases RunTest_reaches_main db schema test mode s with
      ⟨s1, made, s2, dump1, ddls1, hPrep, hDump1, hGen1⟩ | ⟨hnil, -⟩
    · rw [RunTest_of_checked db schema test mode s s1 s2 made dump1 ddls1 hPrep hDump1 hGen1]
        at hm
      obtain ⟨more, hmore, hmm⟩ := mainTest_reports db schema test mode s2 (made ++ [Call.dump])
        (if ddls1 = [] then [] else [Report.modified (JoinDDLs ddls1)])
      rw [hmore] at hm
      rcases List.mem_append.1 hm with hm | hm
      · exfalso
        by_cases hne : ddls1 = []
        · simp [hne] at hm
        · simp [hne] at hm
      · obtain ⟨s3, dump, ddls, hDump, hGen, h1, h2, h3⟩ := hmm expected actual hm
        exact ⟨s1, made, s2, dump1, ddls1, s3, dump, ddls, hPrep, hDump1, hGen1, hDump, hGen,
          h1, h2, h3⟩
    · rw [hnil] at hm
      simp at hm
  refine ⟨?_, hback⟩
  intro s1 made s2 dump1 ddls1 s3 dump ddls hPrep hDump1 hGen1 hDump hGen
  have hsame : ∀ expected actual,
      Report.mismatch expected actual ∈ (RunTest db schema test mode s).reports →
      expected = test.Output ∧ actual = JoinDDLs ddls ∧ test.Output ≠ JoinDDLs ddls := by
    intro expected actual hm
    obtain ⟨t1, m1, t2, d1, l1, t3, d, l, hp, hd1, -, hd, hg, h1, h2, h3⟩ :=
      hback expected actual hm
    rw [hPrep] at hp
    simp only [Ran.mk.injEq] at hp
    obtain ⟨rfl, rfl, -⟩ := hp
    rw [hDump1] at hd1
    simp only [Prod.mk.injEq, and_true] at hd1
    obtain ⟨rfl, rfl⟩ := hd1
    rw [hDump] at hd
    simp only [Prod.mk.injEq, and_true] at hd
    obtain ⟨rfl, rfl⟩ := hd
    rw [hGen] at hg
    simp only [Prod.mk.injEq, and_true] at hg
    subst hg
    exact ⟨h1, h2, h3⟩
  refine ⟨⟨fun hm => (hsame _ _ hm).2.2, ?_⟩, fun e a hm => ⟨(hsame e a hm).1, (hsame e a hm).2.1⟩,
    ?_⟩
  · intro hne
    rw [RunTest_of_checked db schema test mode s s1 s2 made dump1 ddls1 hPrep hDump1 hGen1,
      mainTest_of_generated db schema test mode s2 s3 _ _ dump ddls hDump hGen]
    cases hr : (RunDDLs db s3 ddls).err with
    | some err => simp [hne]
    | none =>
      simp only
      obtain ⟨⟨more, hmore, -⟩, -⟩ := checkDesired_reports db schema test mode
        (RunDDLs db s3 ddls).state (made ++ [Call.dump] ++ [Call.dump] ++ (RunDDLs db s3 ddls).calls)
        ((if ddls1 = [] then [] else [Report.modified (JoinDDLs ddls1)]) ++
          (if test.Output = JoinDDLs ddls then []
            else [Report.mismatch test.Output (JoinDDLs ddls)]))
      rw [hmore]
      simp [hne]
  · rw [RunTest_of_checked db schema test mode s s1 s2 made dump1 ddls1 hPrep hDump1 hGen1,
      mainTest_of_generated db schema test mode s2 s3 _ _ dump ddls hDump hGen]
    cases hr : (RunDDLs db s3 ddls).err with
    | some err => simp
    | none =>
      simp only
      rcases hd : db.DumpDDLs (RunDDLs db s3 ddls).state with ⟨s5, dump3, _ | e⟩
      · rcases hg : schema.GenerateIdempotentDDLs mode test.Desired dump3 with ⟨ddls3, _ | e⟩
        · rw [checkDesired_of_generated db schema test mode _ s5 _ _ dump3 ddls3 hd hg]
          simp
        · simp [checkDesired, hd, hg]
      · simp [checkDesired, hd]

/-- Witness of C8: the run on `wrongOutput` reaches the main test, where the
generated text differs from the expected one, and records that mismatch. -/
theorem RunTest_main_check_witness :
    wrongOutput.Output ≠ JoinDDLs ["CREATE TABLE a (id int)"] ∧
    Report.mismatch "CREATE TABLE b (id int);\n" "CREATE TABLE a (id int);\n"
      ∈ (RunTest textDb textSchema wrongOutput () "").reports :=
  ⟨by decide, (((RunTest_main_check textDb textSchema wrongOutput () "").1
    "" [] "" "" [] "" "" ["CREATE TABLE a (id int)"] rfl rfl rfl rfl rfl).1).2 (by decide)⟩

end Testutils
